import Mathlib

/-!
Verification of the DirectDownload-Tg pipeline (downloaders.py, utils.py,
upload.py) against its natural-language specification.  The Python source
is shallowly embedded: strings are `List Char`, external effects (HTTP
downloads, ffmpeg/ffprobe subprocesses, Telegram sends) are passed in as
explicit result values/oracles, and each embedded definition mirrors the
control flow of the corresponding Python function.
-/

namespace DDTg

/-! ## Embedding of `utils.clean_filename` and its helpers

Python:
```
def clean_filename(filename):
    try: filename = urllib.parse.unquote(filename, encoding='utf-8', errors='replace')
    except Exception: pass
    filename = filename.replace('%20', ' ')
    cleaned_filename = re.sub(r'[\\/:*?"<>|]', '_', filename)
    cleaned_filename = re.sub(r'_+', '_', cleaned_filename)
    cleaned_filename = cleaned_filename.strip('._ ')
    cleaned_filename = cleaned_filename[:250]
    return cleaned_filename if cleaned_filename else "downloaded_file"
```
-/

/-- Value of an ASCII hex digit, as used by percent-decoding. -/
def hexDigitVal? (c : Char) : Option Nat :=
  if '0' ≤ c ∧ c ≤ '9' then some (c.toNat - '0'.toNat)
  else if 'a' ≤ c ∧ c ≤ 'f' then some (c.toNat - 'a'.toNat + 10)
  else if 'A' ≤ c ∧ c ≤ 'F' then some (c.toNat - 'A'.toNat + 10)
  else none

/-- U+FFFD, the replacement character used by `errors='replace'`. -/
def replChar : Char := Char.ofNat 0xFFFD

/-- Decoder state of the incremental UTF-8 decoder: how many continuation
bytes are still expected, the accumulated partial codepoint, and the
allowed range for the next byte (tightened after E0/ED/F0/F4 leads to
exclude overlong encodings and surrogates, as a standards-conformant
decoder does). -/
structure Utf8State where
  need : Nat
  acc : Nat
  lo : Nat
  hi : Nat
deriving DecidableEq

/-- Initial decoder state. -/
def utf8Init : Utf8State := ⟨0, 0, 0x80, 0xBF⟩

/-- Consume one byte in the lead position: emit an ASCII character, start
a multi-byte sequence, or emit a replacement character for an invalid
lead. -/
def utf8Start (b : Nat) : List Char × Utf8State :=
  if b < 0x80 then ([Char.ofNat b], utf8Init)
  else if 0xC2 ≤ b ∧ b ≤ 0xDF then ([], ⟨1, b - 0xC0, 0x80, 0xBF⟩)
  else if 0xE0 ≤ b ∧ b ≤ 0xEF then
    ([], ⟨2, b - 0xE0, if b = 0xE0 then 0xA0 else 0x80,
      if b = 0xED then 0x9F else 0xBF⟩)
  else if 0xF0 ≤ b ∧ b ≤ 0xF4 then
    ([], ⟨3, b - 0xF0, if b = 0xF0 then 0x90 else 0x80,
      if b = 0xF4 then 0x8F else 0xBF⟩)
  else ([replChar], utf8Init)

/-- Incremental UTF-8 decoding with replacement: an invalid or missing
continuation byte emits one replacement character and the offending byte
is reprocessed as a fresh lead. -/
def utf8DecodeReplaceAux : Utf8State → List Nat → List Char
  | st, [] => if st.need = 0 then [] else [replChar]
  | st, b :: rest =>
    if st.need = 0 then
      let r := utf8Start b
      r.1 ++ utf8DecodeReplaceAux r.2 rest
    else if st.lo ≤ b ∧ b ≤ st.hi then
      if st.need = 1 then
        Char.ofNat (st.acc * 0x40 + (b - 0x80)) :: utf8DecodeReplaceAux utf8Init rest
      else
        utf8DecodeReplaceAux ⟨st.need - 1, st.acc * 0x40 + (b - 0x80), 0x80, 0xBF⟩ rest
    else
      replChar ::
        (let r := utf8Start b
         r.1 ++ utf8DecodeReplaceAux r.2 rest)

/-- UTF-8 decoding with replacement on malformed input, modelling the
`errors='replace'` byte-run decoding inside `urllib.parse.unquote`. -/
def utf8DecodeReplace (bytes : List Nat) : List Char :=
  utf8DecodeReplaceAux utf8Init bytes

/-- One scanned token of a percent-encoded string: a decoded `%XX` byte,
or a literal character passed through. -/
inductive PctTok where
  | byte (b : Nat)
  | lit (c : Char)
deriving DecidableEq

/-- Scan for `%XX` escapes exactly as `urllib.parse.unquote` does: a `%`
followed by two hex digits yields a byte; otherwise the `%` stays literal
and scanning resumes at the next character. -/
def percentTokens : List Char → List PctTok
  | [] => []
  | '%' :: h1 :: h2 :: rest =>
    match hexDigitVal? h1, hexDigitVal? h2 with
    | some a, some b => .byte (a * 16 + b) :: percentTokens rest
    | _, _ => .lit '%' :: percentTokens (h1 :: h2 :: rest)
  | '%' :: rest => .lit '%' :: percentTokens rest
  | c :: rest => .lit c :: percentTokens rest

/-- Turn the token stream back into characters, decoding each maximal run
of escape bytes as UTF-8 with replacement (as `unquote` does). -/
def decodeTokens (acc : List Nat) : List PctTok → List Char
  | [] => utf8DecodeReplace acc.reverse
  | .byte b :: rest => decodeTokens (b :: acc) rest
  | .lit c :: rest => utf8DecodeReplace acc.reverse ++ (c :: decodeTokens [] rest)

/-- `urllib.parse.unquote(s, encoding='utf-8', errors='replace')`. -/
def unquote (l : List Char) : List Char := decodeTokens [] (percentTokens l)

/-- `filename.replace('%20', ' ')`: left-to-right non-overlapping. -/
def replace20 : List Char → List Char
  | '%' :: '2' :: '0' :: rest => ' ' :: replace20 rest
  | c :: rest => c :: replace20 rest
  | [] => []

/-- Membership in the character class of `re.sub(r'[\\/:*?"<>|]', '_', ...)`. -/
def isBanned (c : Char) : Bool :=
  c = '\\' || c = '/' || c = ':' || c = '*' || c = '?' || c = '\"' ||
  c = '<' || c = '>' || c = '|'

/-- `re.sub(r'[\\/:*?"<>|]', '_', s)`. -/
def subBanned (l : List Char) : List Char :=
  l.map (fun c => if isBanned c then '_' else c)

/-- `re.sub(r'_+', '_', s)`: collapse each run of underscores to one (the
first of two adjacent underscores is dropped, so each maximal run shrinks
to a single underscore). -/
def collapseUnderscores : List Char → List Char
  | [] => []
  | [c] => [c]
  | c1 :: c2 :: rest =>
    if c1 = '_' ∧ c2 = '_' then collapseUnderscores (c2 :: rest)
    else c1 :: collapseUnderscores (c2 :: rest)

/-- Membership in the strip set of `.strip('._ ')`. -/
def isStripChar (c : Char) : Bool := c = '.' || c = '_' || c = ' '

/-- Python `s.strip(chars)`: drop characters of the set from both ends. -/
def stripBoth (p : Char → Bool) (l : List Char) : List Char :=
  (((l.dropWhile p).reverse.dropWhile p)).reverse

/-- The sanitation pipeline of `clean_filename` before the final
empty-check (unquote, `%20` fix, character class substitution, underscore
collapse, strip, 250-codepoint truncation). -/
def cleanPipeline (filename : List Char) : List Char :=
  let f1 := unquote filename
  let f2 := replace20 f1
  let c1 := subBanned f2
  let c2 := collapseUnderscores c1
  let c3 := stripBoth isStripChar c2
  c3.take 250

/-- The fallback name returned for an empty cleaned result. -/
def fallbackName : List Char := "downloaded_file".data

/-- `utils.clean_filename`. -/
def clean_filename (filename : List Char) : List Char :=
  let c := cleanPipeline filename
  if c = [] then fallbackName else c

/-! ## Embedding of `utils.split_if_needed` (size gate)

The filesystem facts the Python code reads (`os.path.exists`,
`os.path.getsize`) are passed in as explicit arguments; the function
returns which of the three control-flow branches is taken. -/

/-- `TARGET_SPLIT_SIZE_BYTES = 1800 * 1024 * 1024` from utils.py. -/
def TARGET_SPLIT_SIZE_BYTES : Nat := 1800 * 1024 * 1024

/-- `SPLIT_CHECK_SIZE = 1950 * 1024 * 1024` from utils.py. -/
def SPLIT_CHECK_SIZE : Nat := 1950 * 1024 * 1024

/-- `VIDEO_EXTENSIONS` from utils.py. -/
def VIDEO_EXTENSIONS : List (List Char) :=
  [".mp4".data, ".mkv".data, ".avi".data, ".mov".data, ".webm".data,
   ".flv".data, ".wmv".data, ".mpeg".data, ".mpg".data]

/-- Extension part of `os.path.splitext` on a basename: everything from
the last dot on, except that a name consisting of leading dots only (such
as `.bashrc` or `..mp4`) has no extension. -/
def splitextExt (base : List Char) : List Char :=
  let r := base.reverse
  let afterRev := r.takeWhile (fun c => c ≠ '.')
  match r.dropWhile (fun c => c ≠ '.') with
  | [] => []
  | _ :: beforeRev =>
    if beforeRev.any (fun c => c ≠ '.') then '.' :: afterRev.reverse else []

/-- ASCII lowering, as `ext.lower()` behaves on extension strings. -/
def lowerStr (l : List Char) : List Char := l.map Char.toLower

/-- Which branch `split_if_needed` takes. -/
inductive SplitDecision where
  | notFound     -- `os.path.exists` is false: return None
  | noSplit      -- size within `SPLIT_CHECK_SIZE`: return [original_path]
  | videoSplit   -- dispatch to `_split_video_dynamic_duration`
  | unsupported  -- large file, not video or mode not Video: return None
deriving DecidableEq

/-- `utils.split_if_needed`: the size gate and mode dispatch. -/
def split_if_needed (fileExists : Bool) (file_size : Nat)
    (base_filename : List Char) (upload_mode : String) : SplitDecision :=
  if ¬fileExists then .notFound
  else
    let ext := splitextExt base_filename
    let is_video := lowerStr ext ∈ VIDEO_EXTENSIONS
    if file_size ≤ SPLIT_CHECK_SIZE then .noSplit
    else if is_video ∧ upload_mode = "Video" then .videoSplit
    else .unsupported

/-! ## Embedding of `utils._split_video_dynamic_duration` (decision part)

The probe results (`bit_rate`, `duration` from ffprobe) are inputs; the
function returns whether the split is aborted, skipped, or handed to the
ffmpeg segmenter with the computed per-segment duration.  Python
truncates `int(target_size_bits / bitrate)` toward zero; on this path the
bitrate is positive, so truncation coincides with the floor. -/

/-- `target_size_bits = TARGET_SPLIT_SIZE_BYTES * 8` as an exact rational. -/
def TARGET_SPLIT_SIZE_BITS : ℚ := 1800 * 1024 * 1024 * 8

/-- Which branch `_split_video_dynamic_duration` takes before invoking
ffmpeg. -/
inductive VideoSplitStep where
  | abortNoBitrate                      -- bitrate missing or ≤ 0: return None
  | noSplitNeeded                       -- whole video fits one segment: [original_path]
  | runSegmenter (segment_duration : ℤ) -- invoke ffmpeg with this -segment_time
deriving DecidableEq

/-- The bitrate/duration arithmetic of `_split_video_dynamic_duration`. -/
def video_split_decision (bitrate : Option ℚ) (duration_from_probe : Option ℚ) :
    VideoSplitStep :=
  match bitrate with
  | none => .abortNoBitrate
  | some b =>
    if b ≤ 0 then .abortNoBitrate
    else
      let calculated_duration : ℤ := ⌊TARGET_SPLIT_SIZE_BITS / b⌋
      let segment_duration : ℤ := max 10 calculated_duration
      match duration_from_probe with
      | some d =>
        -- `if duration_from_probe and segment_duration >= duration_from_probe`:
        -- a float of 0.0 is falsy, so the shortcut needs d ≠ 0.
        if d ≠ 0 ∧ d ≤ (segment_duration : ℚ) then .noSplitNeeded
        else .runSegmenter segment_duration
      | none => .runSegmenter segment_duration

/-! ## Embedding of `utils.cleanup_split_parts`

The filesystem is a list of paths currently on disk; the function value
is the list of file paths the call removes. -/

/-- `utils.cleanup_split_parts`: which files get deleted. -/
def cleanup_split_parts (onDisk : List (List Char)) (original_path : List Char)
    (parts : List (List Char)) : List (List Char) :=
  if parts = [] ∨ parts.length ≤ 1 then []
  else
    parts.filter (fun p => p ∈ onDisk) ++
      (if original_path ∈ onDisk ∧ parts.length > 1 then [original_path] else [])

/-! ## Embedding of `upload.upload_file_pyrogram` (control flow)

The two external send operations (the primary-mode send and the
`send_document` fallback) are inputs: either they return a sent message
or they raise one of the error classes below.  The outcome records the
boolean the function returns and how many fallback document sends were
attempted. -/

/-- Error classes that the upload code distinguishes. -/
inductive PyroError where
  | mediaCaptionTooLong
  | badRequest
  | botMethodInvalid
  | timeoutError
  | valueError
  | floodWait (seconds : Nat)
  | otherError
deriving DecidableEq

/-- Result of one send attempt against the transport. -/
inductive SendResult where
  | sent
  | raisedErr (e : PyroError)
deriving DecidableEq

/-- The exception tuple of the inner `except (MediaCaptionTooLong,
BadRequest, BotMethodInvalid, TimeoutError, ValueError)`. -/
def isPrimaryFallbackError : PyroError → Bool
  | .mediaCaptionTooLong => true
  | .badRequest => true
  | .botMethodInvalid => true
  | .timeoutError => true
  | .valueError => true
  | _ => false

/-- `attempted_mode`: Video and Audio keep their send function, anything
else becomes a Document send. -/
def attemptedMode (upload_mode : String) : String :=
  if upload_mode = "Video" then "Video"
  else if upload_mode = "Audio" then "Audio"
  else "Document"

/-- What one `upload_file_pyrogram` call did. -/
structure UploadOutcome where
  success : Bool
  fallbackDocAttempts : Nat
deriving DecidableEq

/-- `upload.upload_file_pyrogram`: the success/fallback/failure control
flow.  A `floodWait` or `otherError` from a send is not in the inner
exception tuple, so it reaches the outer handlers, which return False. -/
def upload_file_pyrogram (upload_enabled : Bool) (upload_mode : String)
    (primarySend : SendResult) (fallbackSend : SendResult) : UploadOutcome :=
  if ¬upload_enabled then ⟨true, 0⟩
  else
    let mode := attemptedMode upload_mode
    match primarySend with
    | .sent => ⟨true, 0⟩
    | .raisedErr e =>
      if isPrimaryFallbackError e then
        if mode ≠ "Document" then
          match fallbackSend with
          | .sent => ⟨true, 1⟩
          | .raisedErr _ => ⟨false, 1⟩
        else ⟨false, 0⟩
      else ⟨false, 0⟩

/-! ## Embedding of the progress-callback error handling in
`upload.upload_file_pyrogram` (the `progress` closure, upload.py 121-138) -/

/-- What the `edit_message_text` inside the progress callback did. -/
inductive EditOutcome where
  | editOk
  | floodWaitEdit (seconds : Nat)
  | badRequestNotModified
  | badRequestMessageGone
  | badRequestOther
  | otherException
deriving DecidableEq

/-- How the callback reacts; none of these propagates an exception, so
the callback can never fail the upload. -/
inductive ProgressAction where
  | updatedTimestamp
  | sleptAndContinued (seconds : Nat)
  | ignoredSame
  | stoppedEdits
  | loggedOnly
deriving DecidableEq

/-- The exception handling of the progress closure: a FloodWait sleeps
`fw.value + 1` seconds and continues. -/
def progress_edit_reaction : EditOutcome → ProgressAction
  | .editOk => .updatedTimestamp
  | .floodWaitEdit s => .sleptAndContinued (s + 1)
  | .badRequestNotModified => .ignoredSame
  | .badRequestMessageGone => .stoppedEdits
  | .badRequestOther => .loggedOnly
  | .otherException => .loggedOnly

/-! ## Embedding of the per-job segment-upload loop (downloaders.py
162-174, identical in the delta and bitso single-file functions) -/

/-- The `for i, part_path in enumerate(parts)` loop with
`if not upload_ok: all_ok = False; break`: returns `all_ok` and the list
of segment indices whose upload was attempted, in attempt order. -/
def upload_parts_loop (upload_ok : Nat → Bool) : Nat → List (List Char) → Bool × List Nat
  | _, [] => (true, [])
  | i, _ :: rest =>
    if upload_ok i then
      let r := upload_parts_loop upload_ok (i + 1) rest
      (r.1, i :: r.2)
    else (false, [i])

/-- The segment-upload loop started at index 0. -/
def uploadSegments (upload_ok : Nat → Bool) (parts : List (List Char)) :
    Bool × List Nat :=
  upload_parts_loop upload_ok 0 parts

/-- `if delete_after_upload and parts and all_ok: await cleanup_split_parts(...)`. -/
def cleanup_runs (delete_after_upload : Bool) (parts : List (List Char))
    (all_ok : Bool) : Bool :=
  delete_after_upload && decide (parts ≠ []) && all_ok

/-! ## Embedding of the batch downloaders (downloaders.py)

Network, filesystem and upload effects of one job are an oracle from the
(stripped) url and filename to the job's outcome.  Each batch function
returns the `failed_sources` list it builds plus how many pairs got past
the pre-flight checks (i.e. how many jobs were actually processed). -/

/-- Python `str.strip()` whitespace set (ASCII part). -/
def isPyWhitespace (c : Char) : Bool :=
  c = ' ' || c = '\t' || c = '\n' || c = '\r' || c = '\x0B' || c = '\x0C'

/-- Python `s.strip()`. -/
def pyStrip (l : List Char) : List Char := stripBoth isPyWhitespace l

/-- Outcome of one nzbcloud job after the pre-flight skip check. -/
inductive JobResult where
  | dirError      -- os.makedirs raised OSError (line 106)
  | downloadFail  -- download raised (lines 146-148)
  | splitFail     -- split_if_needed returned None (lines 172-173)
  | uploadFail    -- some part upload failed (line 171)
  | ok
deriving DecidableEq

/-- The `url or f"No URL for {file_name}"` value appended on skip. -/
def noUrlMsg (file_name : List Char) : List Char := "No URL for ".data ++ file_name

/-- One iteration of the `download_files_nzbcloud` loop: updates
`failed_sources` and reports whether the pair got past pre-flight. -/
def nzb_handle_pair (result : List Char → List Char → JobResult)
    (failed : List (List Char)) (url0 file_name0 : List Char) :
    List (List Char) × Bool :=
  let url := pyStrip url0
  let file_name := pyStrip file_name0
  if url = [] ∨ file_name = [] then
    -- line 97: unconditional `failed_sources.append(url or ...)`
    (failed ++ [if url ≠ [] then url else noUrlMsg file_name], false)
  else
    match result url file_name with
    | .dirError => (failed ++ [url], true)  -- line 106: unconditional append
    | .downloadFail => ((if url ∈ failed then failed else failed ++ [url]), true)
    | .splitFail => ((if url ∈ failed then failed else failed ++ [url]), true)
    | .uploadFail => ((if url ∈ failed then failed else failed ++ [url]), true)
    | .ok => (failed, true)

/-- Fold step of the nzbcloud batch loop, also counting processed pairs. -/
def nzb_step (result : List Char → List Char → JobResult)
    (acc : List (List Char) × Nat) (p : List Char × List Char) :
    List (List Char) × Nat :=
  ((nzb_handle_pair result acc.1 p.1 p.2).1,
    acc.2 + if (nzb_handle_pair result acc.1 p.1 p.2).2 then 1 else 0)

/-- `downloaders.download_files_nzbcloud`: note there is no length check;
the loop runs over `zip(urls, filenames)`. -/
def download_files_nzbcloud (result : List Char → List Char → JobResult)
    (urls filenames : List (List Char)) : List (List Char) × Nat :=
  (urls.zip filenames).foldl (nzb_step result) ([], 0)

/-- Fold step of the deltaleech batch loop (downloaders.py 246-250). -/
def delta_step (result : List Char → List Char → Bool)
    (acc : List (List Char) × Nat) (p : List Char × List Char) :
    List (List Char) × Nat :=
  let url := pyStrip p.1
  let file_name := pyStrip p.2
  if file_name = [] then (acc.1 ++ [url], acc.2)  -- line 248: unconditional
  else
    let success := result url file_name
    ((if ¬success ∧ url ∉ acc.1 then acc.1 ++ [url] else acc.1), acc.2 + 1)

/-- `downloaders.download_multiple_files_deltaleech`, with the per-job
download/split/upload collapsed into a boolean success oracle. -/
def download_multiple_files_deltaleech (result : List Char → List Char → Bool)
    (urls file_names : List (List Char)) : List (List Char) × Nat :=
  if urls.length ≠ file_names.length then (urls, 0)
  else (urls.zip file_names).foldl (delta_step result) ([], 0)

/-- Fold step of the bitso batch loop (downloaders.py 323-325). -/
def bitso_step (result : List Char → List Char → Bool)
    (acc : List (List Char) × Nat) (p : List Char × List Char) :
    List (List Char) × Nat :=
  let url := pyStrip p.1
  let success := result url (pyStrip p.2)
  ((if ¬success ∧ url ∉ acc.1 then acc.1 ++ [url] else acc.1), acc.2 + 1)

/-- `downloaders.download_multiple_files_bitso`. -/
def download_multiple_files_bitso (result : List Char → List Char → Bool)
    (urls file_names : List (List Char)) : List (List Char) × Nat :=
  if urls.length ≠ file_names.length then (urls, 0)
  else (urls.zip file_names).foldl (bitso_step result) ([], 0)

/-- Number of `(url, filename)` pairs of the zipped batch that pass the
nzbcloud pre-flight check (both strip to nonempty). -/
def nzbPreflightCount (urls filenames : List (List Char)) : Nat :=
  ((urls.zip filenames).filter
    (fun p => decide (pyStrip p.1 ≠ []) && decide (pyStrip p.2 ≠ []))).length

/-!
## Theorems
-/

/-- Claim C5: size gate of `split_if_needed` — a file of at most
`SPLIT_CHECK_SIZE` bytes (in particular exactly that size) is passed
through unsplit; one byte above, a video extension in Video mode enters
the split path, and every other combination fails explicitly. -/
theorem claim_C5_size_gate (base : List Char) (mode : String) (size : Nat) :
    (size ≤ SPLIT_CHECK_SIZE → split_if_needed true size base mode = .noSplit) ∧
    split_if_needed true SPLIT_CHECK_SIZE base mode = .noSplit ∧
    (lowerStr (splitextExt base) ∈ VIDEO_EXTENSIONS → mode = "Video" →
      split_if_needed true (SPLIT_CHECK_SIZE + 1) base mode = .videoSplit) ∧
    (¬(lowerStr (splitextExt base) ∈ VIDEO_EXTENSIONS ∧ mode = "Video") →
      split_if_needed true (SPLIT_CHECK_SIZE + 1) base mode = .unsupported) := by
  unfold split_if_needed
  refine ⟨fun h => by simp [h], by simp, fun hv hm => ?_, fun hnot => ?_⟩
  · rw [if_neg (by simp), if_neg (by omega), if_pos ⟨hv, hm⟩]
  · rw [if_neg (by simp), if_neg (by omega), if_neg hnot]

/-- Claim C5 witness: a 2 GiB-plus-one-byte `.mp4` in Video mode takes the
video-split path. -/
theorem claim_C5_size_gate_witness :
    split_if_needed true (SPLIT_CHECK_SIZE + 1) "v.mp4".data "Video" = .videoSplit :=
  (claim_C5_size_gate "v.mp4".data "Video" 0).2.2.1 (by decide) rfl

/-- Claim C6 counterexample: with a probed total duration of exactly 0
(which is falsy in Python), the computed segment duration 10 is ≥ the
total duration, yet the code still proceeds to run the segmenter instead
of returning the original file. -/
theorem claim_C6_counterexample :
    video_split_decision (some 15099494400) (some 0) = .runSegmenter 10 ∧
    (0 : ℚ) ≤ ((10 : ℤ) : ℚ) ∧
    video_split_decision (some 15099494400) (some 0) ≠ .noSplitNeeded := by
  have h : video_split_decision (some 15099494400) (some 0) = .runSegmenter 10 := by
    norm_num [video_split_decision, TARGET_SPLIT_SIZE_BITS]
  refine ⟨h, by norm_num, ?_⟩
  rw [h]
  intro hc
  exact VideoSplitStep.noConfusion hc

/-- Claim C6 (amended): for every probed bitrate b > 0 the segmenter, when
invoked, is invoked with per-segment duration
`max 10 ⌊(1800 * 1024 * 1024 * 8) / b⌋`; and whenever the probed total
duration is nonzero and at most that segment duration, no split is
performed (the original file is the single artifact). -/
theorem claim_C6_segment_duration (b : ℚ) (hb : 0 < b) (od : Option ℚ) :
    (∀ s, video_split_decision (some b) od = .runSegmenter s →
      s = max 10 ⌊(1800 * 1024 * 1024 * 8 : ℚ) / b⌋) ∧
    (∀ d : ℚ, od = some d → d ≠ 0 →
      d ≤ ((max 10 ⌊(1800 * 1024 * 1024 * 8 : ℚ) / b⌋ : ℤ) : ℚ) →
      video_split_decision (some b) od = .noSplitNeeded) := by
  have hb' : ¬(b ≤ 0) := not_le.mpr hb
  unfold video_split_decision TARGET_SPLIT_SIZE_BITS
  cases od with
  | none => simp [hb']
  | some d =>
    simp only [hb', if_false]
    by_cases hd : d ≠ 0 ∧ d ≤ ((max 10 ⌊(1800 * 1024 * 1024 * 8 : ℚ) / b⌋ : ℤ) : ℚ)
    · rw [if_pos hd]
      exact ⟨fun s h => (by cases h), fun d' hd' _ _ => rfl⟩
    · rw [if_neg hd]
      refine ⟨fun s h => (by cases h; rfl), fun d' hd' h1 h2 => absurd ?_ hd⟩
      cases hd'
      exact ⟨h1, h2⟩

/-- Claim C6 witness: bitrate 2 bps, total duration 1 s — the computed
segment duration covers the whole video, so no split is performed. -/
theorem claim_C6_segment_duration_witness :
    video_split_decision (some 2) (some 1) = .noSplitNeeded :=
  (claim_C6_segment_duration 2 (by norm_num) (some 1)).2 1 rfl (by norm_num)
    (by norm_num)

/-- Claim C7: a content/format error (caption too long, bad request,
unsupported bot method, timeout, invalid argument) from the primary send
triggers exactly one generic-document fallback when the primary mode is
not Document (the call succeeds iff the fallback send succeeds), while
the same error class in Document mode is terminal with no retry. -/
theorem claim_C7_document_fallback (mode : String) (e : PyroError) (fb : SendResult)
    (he : isPrimaryFallbackError e = true) :
    (attemptedMode mode ≠ "Document" →
      (upload_file_pyrogram true mode (.raisedErr e) fb).fallbackDocAttempts = 1 ∧
      ((upload_file_pyrogram true mode (.raisedErr e) fb).success = true ↔
        fb = .sent)) ∧
    (attemptedMode mode = "Document" →
      upload_file_pyrogram true mode (.raisedErr e) fb = ⟨false, 0⟩) := by
  unfold upload_file_pyrogram
  constructor
  · intro hmode
    cases fb <;> simp [he, hmode]
  · intro hmode
    cases fb <;> simp [he, hmode]

/-- Claim C7 witness: a caption-too-long failure of a Video-mode send is
retried exactly once as a document. -/
theorem claim_C7_document_fallback_witness :
    (upload_file_pyrogram true "Video" (.raisedErr .mediaCaptionTooLong)
      (.raisedErr .badRequest)).fallbackDocAttempts = 1 :=
  ((claim_C7_document_fallback "Video" .mediaCaptionTooLong
    (.raisedErr .badRequest) rfl).1 (by decide)).1

/-- Claim C8 counterexample: a FloodWait raised by the primary send is not
in the inner exception tuple; it reaches the outer `except FloodWait`
handler, which returns False — the upload reports a hard failure even
though every transport send would have succeeded after the wait. -/
theorem claim_C8_counterexample :
    (upload_file_pyrogram true "Video" (.raisedErr (.floodWait 5)) .sent).success
      = false ∧
    (upload_file_pyrogram true "Video" (.raisedErr (.floodWait 5))
      .sent).fallbackDocAttempts = 0 := by
  constructor <;> decide

/-- Claim C8 (amended): a flood-wait during a progress-message edit is
absorbed by sleeping the signalled duration plus one second and
continuing; but a FloodWait raised by the send itself makes
`upload_file_pyrogram` return failure with no retry. -/
theorem claim_C8_floodwait (s : Nat) (mode : String) (fb : SendResult) :
    progress_edit_reaction (.floodWaitEdit s) = .sleptAndContinued (s + 1) ∧
    upload_file_pyrogram true mode (.raisedErr (.floodWait s)) fb = ⟨false, 0⟩ := by
  refine ⟨rfl, ?_⟩
  unfold upload_file_pyrogram
  simp [isPrimaryFallbackError]

/-- Claim C10: `cleanup_split_parts` deletes nothing when given an empty
or single-element parts list, and the original file can only be among the
deleted paths when splitting produced more than one part. -/
theorem claim_C10_cleanup_keeps_original (onDisk : List (List Char))
    (orig : List Char) (parts : List (List Char)) :
    (parts.length ≤ 1 → cleanup_split_parts onDisk orig parts = []) ∧
    (orig ∈ cleanup_split_parts onDisk orig parts → 1 < parts.length) := by
  unfold cleanup_split_parts
  constructor
  · intro h
    rw [if_pos (Or.inr h)]
  · intro h
    by_contra hlen
    push_neg at hlen
    rw [if_pos (Or.inr hlen)] at h
    exact absurd h (List.not_mem_nil _)

/-- Claim C10 witness: with a single unsplit part on disk, nothing is
deleted. -/
theorem claim_C10_cleanup_keeps_original_witness :
    cleanup_split_parts ["o".data] "o".data ["o".data] = [] :=
  (claim_C10_cleanup_keeps_original ["o".data] "o".data ["o".data]).1 (by decide)

/-- Claim C1 counterexample: `download_files_nzbcloud` given two URLs and
one filename does not reject the batch — it silently zips, processes one
job (which here succeeds), and returns an empty failure list. -/
theorem claim_C1_counterexample :
    download_files_nzbcloud (fun _ _ => .ok)
      ["http://a".data, "http://b".data] ["n".data] = ([], 1) ∧
    (download_files_nzbcloud (fun _ _ => .ok)
      ["http://a".data, "http://b".data] ["n".data]).2 ≠ 0 := by
  exact ⟨by decide, by decide⟩

/-- Claim C4 counterexample: the pre-flight skip branch of
`download_files_nzbcloud` appends unconditionally, so the same URL
supplied twice with missing filenames appears twice in `failed_sources`. -/
theorem claim_C4_counterexample :
    (download_files_nzbcloud (fun _ _ => .ok)
      ["u".data, "u".data] ["".data, "".data]).1.count "u".data = 2 := by
  decide

/-- Behaviour of the segment-upload loop from an arbitrary start index:
the attempted indices are consecutive from the start, `all_ok` holds iff
every segment's upload succeeded, and any attempted index implies all
strictly earlier uploads succeeded. -/
theorem upload_parts_loop_spec (ok : Nat → Bool) :
    ∀ (parts : List (List Char)) (i : Nat),
      (upload_parts_loop ok i parts).2 =
        List.range' i (upload_parts_loop ok i parts).2.length ∧
      ((upload_parts_loop ok i parts).1 = true ↔
        ∀ j, j < parts.length → ok (i + j) = true) ∧
      (∀ k ∈ (upload_parts_loop ok i parts).2, ∀ j, i ≤ j → j < k →
        ok j = true) := by
  intro parts
  induction parts with
  | nil =>
    intro i
    simp [upload_parts_loop]
  | cons p rest ih =>
    intro i
    obtain ⟨ha, hb, hc⟩ := ih (i + 1)
    by_cases h : ok i = true
    · have hstep : upload_parts_loop ok i (p :: rest) =
        ((upload_parts_loop ok (i + 1) rest).1,
          i :: (upload_parts_loop ok (i + 1) rest).2) := by
        simp [upload_parts_loop, h]
      rw [hstep]
      refine ⟨?_, ?_, ?_⟩
      · rw [List.length_cons, List.range'_succ]
        exact congrArg _ ha
      · rw [hb]
        constructor
        · intro hall j hj
          cases j with
          | zero => simpa using h
          | succ j' =>
            have := hall j' (by simpa [Nat.succ_lt_succ_iff] using hj)
            simpa [Nat.add_assoc, Nat.add_comm 1 j'] using this
        · intro hall j hj
          have := hall (j + 1) (by simpa [Nat.succ_lt_succ_iff] using hj)
          simpa [Nat.add_assoc, Nat.add_comm 1 j] using this
      · intro k hk j hij hjk
        rcases List.mem_cons.mp hk with rfl | hk'
        · omega
        · rcases Nat.lt_or_ge j (i + 1) with hj1 | hj1
          · have : j = i := by omega
            simpa [this] using h
          · exact hc k hk' j hj1 hjk
    · have hstep : upload_parts_loop ok i (p :: rest) = (false, [i]) := by
        simp [upload_parts_loop, h]
      rw [hstep]
      refine ⟨by simp [List.range'_one], ?_, ?_⟩
      · constructor
        · intro hfalse
          exact absurd hfalse (by simp)
        · intro hall
          exact absurd (by simpa using hall 0 (by simp)) h
      · intro k hk j hij hjk
        rcases List.mem_singleton.mp hk with rfl
        omega

/-- Claim C9: within one job the segments are uploaded in strictly
ascending, gap-free index order starting at 0; an attempted segment means
every earlier segment succeeded (so the first failure stops the loop);
and the cleanup guard can only fire when every segment of the job
uploaded successfully. -/
theorem claim_C9_segment_order (ok : Nat → Bool) (parts : List (List Char))
    (del : Bool) :
    (uploadSegments ok parts).2 =
      List.range (uploadSegments ok parts).2.length ∧
    (∀ k ∈ (uploadSegments ok parts).2, ∀ j, j < k → ok j = true) ∧
    ((uploadSegments ok parts).1 = true ↔ ∀ j, j < parts.length → ok j = true) ∧
    (cleanup_runs del parts (uploadSegments ok parts).1 = true →
      ∀ j, j < parts.length → ok j = true) := by
  obtain ⟨ha, hb, hc⟩ := upload_parts_loop_spec ok parts 0
  unfold uploadSegments at *
  refine ⟨by rw [List.range_eq_range']; exact ha, ?_, ?_, ?_⟩
  · intro k hk j hjk
    exact hc k hk j (Nat.zero_le j) hjk
  · simpa using hb
  · intro hrun
    have hall : (upload_parts_loop ok 0 parts).1 = true := by
      have := hrun
      unfold cleanup_runs at this
      simp only [Bool.and_eq_true] at this
      exact this.2
    simpa using hb.mp hall

/-- Claim C9 witness: two segments that both upload successfully are
attempted in order 0, 1 and the success of segment 1 follows from segment
0 being attempted after it. -/
theorem claim_C9_segment_order_witness :
    ∀ j, j < (["p0".data, "p1".data] : List (List Char)).length →
      (fun _ => true) j = true :=
  (claim_C9_segment_order (fun _ => true) ["p0".data, "p1".data] true).2.2.2
    (by decide)

/-- Processed-pair flag of one nzbcloud iteration: a pair counts as
processed exactly when both the stripped URL and the stripped filename
are nonempty. -/
theorem nzb_handle_pair_snd (result : List Char → List Char → JobResult)
    (failed : List (List Char)) (u f : List Char) :
    (nzb_handle_pair result failed u f).2 =
      (decide (pyStrip u ≠ []) && decide (pyStrip f ≠ [])) := by
  unfold nzb_handle_pair
  by_cases h1 : pyStrip u = []
  · simp [h1]
  · by_cases h2 : pyStrip f = []
    · simp [h1, h2]
    · cases hres : result (pyStrip u) (pyStrip f) <;> simp [h1, h2, hres]

/-- The processed-pair counter of the nzbcloud fold counts exactly the
pairs passing pre-flight, from any accumulator. -/
theorem nzb_foldl_count (result : List Char → List Char → JobResult) :
    ∀ (l : List (List Char × List Char)) (acc : List (List Char) × Nat),
      (l.foldl (nzb_step result) acc).2 =
        acc.2 + (l.filter
          (fun p => decide (pyStrip p.1 ≠ []) && decide (pyStrip p.2 ≠ []))).length := by
  intro l
  induction l with
  | nil => intro acc; simp
  | cons p rest ih =>
    intro acc
    rw [List.foldl_cons, ih, List.filter_cons]
    by_cases hp : (decide (pyStrip p.1 ≠ []) && decide (pyStrip p.2 ≠ [])) = true
    · simp only [hp, if_true, List.length_cons]
      simp only [nzb_step, nzb_handle_pair_snd, hp, if_true]
      omega
    · simp only [hp, Bool.false_eq_true, if_false]
      simp only [nzb_step, nzb_handle_pair_snd, hp, if_false]
      simp only [Bool.not_eq_true] at hp
      simp [hp]

/-- Claim C1 (amended): the deltaleech and bitso batch operations reject a
count-mismatched batch immediately — the whole URL list is returned as
failed and no job is processed — while `download_files_nzbcloud` has no
such check: it always processes exactly the zip-aligned pairs that pass
pre-flight, regardless of any count mismatch. -/
theorem claim_C1_mismatch_rejection :
    (∀ (result : List Char → List Char → Bool) (urls fns : List (List Char)),
      urls.length ≠ fns.length →
        download_multiple_files_deltaleech result urls fns = (urls, 0) ∧
        download_multiple_files_bitso result urls fns = (urls, 0)) ∧
    (∀ (result : List Char → List Char → JobResult) (urls fns : List (List Char)),
      (download_files_nzbcloud result urls fns).2 = nzbPreflightCount urls fns) := by
  constructor
  · intro result urls fns h
    constructor
    · unfold download_multiple_files_deltaleech
      rw [if_pos h]
    · unfold download_multiple_files_bitso
      rw [if_pos h]
  · intro result urls fns
    unfold download_files_nzbcloud nzbPreflightCount
    rw [nzb_foldl_count]
    simp

/-- Claim C1 witness: a two-URLs-one-name batch is rejected whole by the
bitso batch operation. -/
theorem claim_C1_mismatch_rejection_witness :
    download_multiple_files_bitso (fun _ _ => true)
      ["http://a".data, "http://b".data] ["n".data] =
      (["http://a".data, "http://b".data], 0) :=
  (claim_C1_mismatch_rejection.1 (fun _ _ => true)
    ["http://a".data, "http://b".data] ["n".data] (by decide)).2

/-- Nodup invariant of the bitso fold: every append is guarded by a
membership test. -/
theorem bitso_foldl_nodup (result : List Char → List Char → Bool) :
    ∀ (l : List (List Char × List Char)) (acc : List (List Char) × Nat),
      acc.1.Nodup → ((l.foldl (bitso_step result) acc).1).Nodup := by
  intro l
  induction l with
  | nil => intro acc h; simpa using h
  | cons p rest ih =>
    intro acc h
    rw [List.foldl_cons]
    refine ih _ ?_
    dsimp only [bitso_step]
    by_cases hc : ¬result (pyStrip p.1) (pyStrip p.2) = true ∧ pyStrip p.1 ∉ acc.1
    · rw [if_pos hc]
      simp [List.nodup_append, h, hc.2]
    · rw [if_neg hc]
      exact h

/-- Nodup invariant of the nzbcloud fold, for batches whose pairs all pass
pre-flight and never hit the directory-creation error (the two code paths
that append to `failed_sources` without a membership guard). -/
theorem nzb_foldl_nodup (result : List Char → List Char → JobResult) :
    ∀ (l : List (List Char × List Char)) (acc : List (List Char) × Nat),
      (∀ p ∈ l, pyStrip p.1 ≠ [] ∧ pyStrip p.2 ≠ [] ∧
        result (pyStrip p.1) (pyStrip p.2) ≠ .dirError) →
      acc.1.Nodup → ((l.foldl (nzb_step result) acc).1).Nodup := by
  intro l
  induction l with
  | nil => intro acc _ h; simpa using h
  | cons p rest ih =>
    intro acc hmem h
    rw [List.foldl_cons]
    refine ih _ (fun q hq => hmem q (List.mem_cons_of_mem _ hq)) ?_
    obtain ⟨h1, h2, h3⟩ := hmem p (List.mem_cons_self _ _)
    dsimp only [nzb_step, nzb_handle_pair]
    rw [if_neg (by simp [h1, h2])]
    cases hres : result (pyStrip p.1) (pyStrip p.2) with
    | dirError => exact absurd hres h3
    | downloadFail =>
      by_cases hmem' : pyStrip p.1 ∈ acc.1
      · simpa [hmem'] using h
      · simp [hmem', List.nodup_append, h]
    | splitFail =>
      by_cases hmem' : pyStrip p.1 ∈ acc.1
      · simpa [hmem'] using h
      · simp [hmem', List.nodup_append, h]
    | uploadFail =>
      by_cases hmem' : pyStrip p.1 ∈ acc.1
      · simpa [hmem'] using h
      · simp [hmem', List.nodup_append, h]
    | ok => simpa using h

/-- Claim C4 (amended): `failed_sources` is duplicate-free for every bitso
batch that passes the count check, and for every nzbcloud batch in which
no pair triggers the unguarded pre-flight-skip or directory-error
appends; the unguarded appends (missing URL/filename, directory-creation
failure) are the only paths that can introduce duplicates. -/
theorem claim_C4_failed_sources_nodup :
    (∀ (result : List Char → List Char → Bool) (urls fns : List (List Char)),
      urls.length = fns.length →
      (download_multiple_files_bitso result urls fns).1.Nodup) ∧
    (∀ (result : List Char → List Char → JobResult) (urls fns : List (List Char)),
      (∀ p ∈ urls.zip fns, pyStrip p.1 ≠ [] ∧ pyStrip p.2 ≠ [] ∧
        result (pyStrip p.1) (pyStrip p.2) ≠ .dirError) →
      (download_files_nzbcloud result urls fns).1.Nodup) := by
  constructor
  · intro result urls fns h
    unfold download_multiple_files_bitso
    rw [if_neg (by simp [h])]
    exact bitso_foldl_nodup result _ _ List.nodup_nil
  · intro result urls fns hmem
    unfold download_files_nzbcloud
    exact nzb_foldl_nodup result _ _ hmem List.nodup_nil

/-- Claim C4 witness: a two-job bitso batch where both jobs fail with the
same URL records that URL only once. -/
theorem claim_C4_failed_sources_nodup_witness :
    (download_multiple_files_bitso (fun _ _ => false)
      ["u".data, "u".data] ["a".data, "b".data]).1.Nodup :=
  claim_C4_failed_sources_nodup.1 (fun _ _ => false)
    ["u".data, "u".data] ["a".data, "b".data] rfl

/-- Output characters of the banned-character substitution are never in
the banned class (banned characters become `_`, which is not banned). -/
theorem mem_subBanned_not_banned (l : List Char) :
    ∀ c ∈ subBanned l, isBanned c = false := by
  intro c hc
  rcases List.mem_map.mp hc with ⟨a, _, rfl⟩
  by_cases h : isBanned a = true
  · rw [if_pos h]
    decide
  · rw [if_neg h]
    simpa using h

/-- The substitution is the identity on banned-free strings. -/
theorem subBanned_eq_self (l : List Char) (h : ∀ c ∈ l, isBanned c = false) :
    subBanned l = l := by
  induction l with
  | nil => rfl
  | cons a t ih =>
    have ht := ih fun c hc => h c (List.mem_cons_of_mem _ hc)
    unfold subBanned at ht ⊢
    rw [List.map_cons, ht, if_neg (by simp [h a (List.mem_cons_self _ _)])]

/-- Every character of the collapsed string occurs in the input. -/
theorem mem_collapse : ∀ (l : List Char), ∀ c ∈ collapseUnderscores l, c ∈ l := by
  intro l
  induction l using collapseUnderscores.induct with
  | case1 => simp [collapseUnderscores]
  | case2 c => simp [collapseUnderscores]
  | case3 c1 c2 rest h ih =>
    intro c hc
    rw [show collapseUnderscores (c1 :: c2 :: rest) =
        collapseUnderscores (c2 :: rest) from by simp [collapseUnderscores, h]] at hc
    exact List.mem_cons_of_mem _ (ih c hc)
  | case4 c1 c2 rest h ih =>
    intro c hc
    rw [show collapseUnderscores (c1 :: c2 :: rest) =
        c1 :: collapseUnderscores (c2 :: rest) from by
      simp [collapseUnderscores, h]] at hc
    rcases List.mem_cons.mp hc with rfl | hc'
    · exact List.mem_cons_self _ _
    · exact List.mem_cons_of_mem _ (ih c hc')

/-- The head of a collapsed nonempty string whose first character is not
an underscore is that first character. -/
theorem collapse_head_ne (c : Char) (rest : List Char) (h : ¬c = '_') :
    (collapseUnderscores (c :: rest)).head? = some c := by
  cases rest with
  | nil => simp [collapseUnderscores]
  | cons r1 r2 => simp [collapseUnderscores, h]

/-- The collapsed string has no two adjacent underscores. -/
theorem collapse_chain' : ∀ (l : List Char),
    (collapseUnderscores l).Chain' (fun a b => ¬(a = '_' ∧ b = '_')) := by
  intro l
  induction l using collapseUnderscores.induct with
  | case1 => simp [collapseUnderscores]
  | case2 c => simp [collapseUnderscores]
  | case3 c1 c2 rest h ih =>
    rw [show collapseUnderscores (c1 :: c2 :: rest) =
        collapseUnderscores (c2 :: rest) from by simp [collapseUnderscores, h]]
    exact ih
  | case4 c1 c2 rest h ih =>
    rw [show collapseUnderscores (c1 :: c2 :: rest) =
        c1 :: collapseUnderscores (c2 :: rest) from by
      simp [collapseUnderscores, h]]
    refine List.Chain'.cons' ih ?_
    intro y hy
    by_cases hc1 : c1 = '_'
    · have hc2 : ¬c2 = '_' := fun hh => h ⟨hc1, hh⟩
      rw [collapse_head_ne c2 rest hc2] at hy
      simp only [Option.mem_def, Option.some_inj] at hy
      subst hy
      exact fun hcon => hc2 hcon.2
    · exact fun hcon => hc1 hcon.1

/-- The collapse is the identity on strings with no adjacent double
underscore. -/
theorem collapse_eq_self : ∀ (l : List Char),
    l.Chain' (fun a b => ¬(a = '_' ∧ b = '_')) → collapseUnderscores l = l := by
  intro l
  induction l using collapseUnderscores.induct with
  | case1 => intro _; rfl
  | case2 c => intro _; simp [collapseUnderscores]
  | case3 c1 c2 rest h ih =>
    intro hch
    exact absurd h (by simpa using List.Chain'.rel_head hch)
  | case4 c1 c2 rest h ih =>
    intro hch
    rw [show collapseUnderscores (c1 :: c2 :: rest) =
        c1 :: collapseUnderscores (c2 :: rest) from by
      simp [collapseUnderscores, h]]
    rw [ih hch.tail]

/-- On a percent-free string the escape scanner yields only literals. -/
theorem percentTokens_no_pct : ∀ (l : List Char), '%' ∉ l →
    percentTokens l = l.map PctTok.lit := by
  intro l
  induction l using percentTokens.induct with
  | case1 => intro _; rfl
  | case2 h1 h2 rest a b ha hb =>
    intro hmem
    exact absurd (List.mem_cons_self _ _) hmem
  | case3 h1 h2 rest hhex ih =>
    intro hmem
    exact absurd (List.mem_cons_self _ _) hmem
  | case4 rest h ih =>
    intro hmem
    exact absurd (List.mem_cons_self _ _) hmem
  | case5 c rest hno2 hno4 ih =>
    intro hmem
    have hc : ¬c = '%' := fun hh => hno4 hh
    rw [show percentTokens (c :: rest) = .lit c :: percentTokens rest from by
      simp [percentTokens, hc]]
    rw [ih fun hm => hmem (List.mem_cons_of_mem _ hm), List.map_cons]

/-- Decoding the empty byte run yields no characters. -/
theorem utf8DecodeReplace_nil : utf8DecodeReplace [] = [] := rfl

/-- Decoding a pure-literal token stream returns the original characters. -/
theorem decodeTokens_map_lit : ∀ (l : List Char),
    decodeTokens [] (l.map PctTok.lit) = l := by
  intro l
  induction l with
  | nil => simp [decodeTokens, utf8DecodeReplace_nil]
  | cons c t ih => simp [decodeTokens, utf8DecodeReplace_nil, ih]

/-- `unquote` is the identity on percent-free strings. -/
theorem unquote_eq_self (l : List Char) (h : '%' ∉ l) : unquote l = l := by
  unfold unquote
  rw [percentTokens_no_pct l h, decodeTokens_map_lit]

/-- The `%20` replacement is the identity on percent-free strings. -/
theorem replace20_eq_self : ∀ (l : List Char), '%' ∉ l → replace20 l = l := by
  intro l
  induction l using replace20.induct with
  | case1 rest ih =>
    intro hmem
    exact absurd (List.mem_cons_self _ _) hmem
  | case2 c rest h ih =>
    intro hmem
    rw [show replace20 (c :: rest) = c :: replace20 rest from by
      simp [replace20, h]]
    rw [ih fun hm => hmem (List.mem_cons_of_mem _ hm)]
  | case3 => intro _; rfl

/-- The head of `dropWhile p` never satisfies `p`. -/
theorem head?_dropWhile_false (p : Char → Bool) :
    ∀ (l : List Char) (c : Char), (l.dropWhile p).head? = some c → p c = false := by
  intro l
  induction l with
  | nil =>
    intro c hc
    simp at hc
  | cons a t ih =>
    intro c hc
    rw [List.dropWhile_cons] at hc
    by_cases h : p a = true
    · rw [if_pos h] at hc
      exact ih c hc
    · rw [if_neg h] at hc
      simp only [List.head?_cons, Option.some_inj] at hc
      subst hc
      simpa using h

/-- `dropWhile` is the identity when the head does not satisfy `p`. -/
theorem dropWhile_eq_self_of_head (p : Char → Bool) (l : List Char)
    (h : ∀ c, l.head? = some c → p c = false) : List.dropWhile p l = l := by
  cases l with
  | nil => rfl
  | cons a t => rw [List.dropWhile_cons, if_neg (by simp [h a rfl])]

/-- Every character of the two-sided strip occurs in the input. -/
theorem stripBoth_subset (p : Char → Bool) (l : List Char) :
    ∀ c ∈ stripBoth p l, c ∈ l := by
  intro c hc
  unfold stripBoth at hc
  rw [List.mem_reverse] at hc
  have h1 := (List.dropWhile_suffix p).sublist.subset hc
  rw [List.mem_reverse] at h1
  exact (List.dropWhile_suffix p).sublist.subset h1

/-- The two-sided strip preserves the no-adjacent-underscores invariant
(it only removes characters from the two ends). -/
theorem chain'_stripBoth (p : Char → Bool) (l : List Char)
    (h : l.Chain' (fun a b => ¬(a = '_' ∧ b = '_'))) :
    (stripBoth p l).Chain' (fun a b => ¬(a = '_' ∧ b = '_')) := by
  have hA : (l.dropWhile p).Chain' (fun a b => ¬(a = '_' ∧ b = '_')) := by
    obtain ⟨t, ht⟩ := List.dropWhile_suffix p (l := l)
    rw [← ht] at h
    exact h.right_of_append
  have hAr : ((l.dropWhile p).reverse).Chain' (fun a b => ¬(a = '_' ∧ b = '_')) := by
    rw [List.chain'_reverse]
    exact List.Chain'.imp (fun a b hab hcon => hab ⟨hcon.2, hcon.1⟩) hA
  have hB : (((l.dropWhile p).reverse).dropWhile p).Chain'
      (fun a b => ¬(a = '_' ∧ b = '_')) := by
    obtain ⟨t, ht⟩ := List.dropWhile_suffix p (l := (l.dropWhile p).reverse)
    rw [← ht] at hAr
    exact hAr.right_of_append
  unfold stripBoth
  rw [List.chain'_reverse]
  exact List.Chain'.imp (fun a b hab hcon => hab ⟨hcon.2, hcon.1⟩) hB

/-- The two-sided strip is idempotent. -/
theorem stripBoth_idem (p : Char → Bool) (l : List Char) :
    stripBoth p (stripBoth p l) = stripBoth p l := by
  have hrev : (stripBoth p l).reverse = (l.dropWhile p).reverse.dropWhile p := by
    unfold stripBoth
    rw [List.reverse_reverse]
  have h2 : List.dropWhile p ((stripBoth p l).reverse) = (stripBoth p l).reverse := by
    rw [hrev]
    exact List.dropWhile_idempotent p _
  have h1 : List.dropWhile p (stripBoth p l) = stripBoth p l := by
    apply dropWhile_eq_self_of_head
    intro c hcHead
    unfold stripBoth at hcHead
    rw [List.head?_reverse] at hcHead
    by_cases hB : List.dropWhile p ((List.dropWhile p l).reverse) = []
    · rw [hB] at hcHead
      simp at hcHead
    · obtain ⟨t, ht⟩ := List.dropWhile_suffix p (l := (List.dropWhile p l).reverse)
      have hlast : (List.dropWhile p ((List.dropWhile p l).reverse)).getLast? =
          ((List.dropWhile p l).reverse).getLast? := by
        conv_rhs => rw [← ht]
        rw [List.getLast?_append_of_ne_nil _ hB]
      rw [hlast, List.getLast?_reverse] at hcHead
      exact head?_dropWhile_false p l c hcHead
  have hdef : stripBoth p (stripBoth p l) =
      (((stripBoth p l).dropWhile p).reverse.dropWhile p).reverse := rfl
  rw [hdef, h1, h2, List.reverse_reverse]

/-- The two-sided strip of a string all of whose characters are stripped
is empty. -/
theorem stripBoth_eq_nil (p : Char → Bool) (l : List Char)
    (h : ∀ c ∈ l, p c = true) : stripBoth p l = [] := by
  have h0 : List.dropWhile p l = [] := List.dropWhile_eq_nil_iff.mpr (by simpa using h)
  unfold stripBoth
  rw [h0]
  rfl

/-- A string with no underscores trivially has no adjacent double
underscore. -/
theorem chain'_of_no_underscore (l : List Char) (h : ∀ c ∈ l, ¬c = '_') :
    l.Chain' (fun a b => ¬(a = '_' ∧ b = '_')) := by
  induction l with
  | nil => simp
  | cons a t ih =>
    refine List.Chain'.cons' (ih fun c hc => h c (List.mem_cons_of_mem _ hc)) ?_
    intro y _
    exact fun hcon => h a (List.mem_cons_self _ _) hcon.1

/-- No character of the sanitation pipeline's output is in the banned
class. -/
theorem cleanPipeline_no_banned (x : List Char) :
    ∀ c ∈ cleanPipeline x, isBanned c = false := by
  intro c hc
  unfold cleanPipeline at hc
  have h1 := List.mem_of_mem_take hc
  have h2 := stripBoth_subset isStripChar _ c h1
  have h3 := mem_collapse _ c h2
  exact mem_subBanned_not_banned _ c h3

set_option maxRecDepth 20000 in
/-- Claim C2 counterexample: `clean_filename` strips `'._ '` before
truncating to 250 characters, so a 251-character name cleans to a string
ending in a dot, which a second application strips — the sanitizer is not
idempotent. -/
theorem claim_C2_counterexample :
    clean_filename (clean_filename (List.replicate 249 'a' ++ ['.', 'a'])) ≠
      clean_filename (List.replicate 249 'a' ++ ['.', 'a']) := by
  decide

/-- Claim C2 (amended): the sanitizer is idempotent on every input whose
cleaned result contains no percent sign and is shorter than 250
characters; the two failure modes are re-decoding of percent escapes on
the second pass and the 250-character truncation exposing a strippable
trailing character. -/
theorem claim_C2_idempotent (x : List Char)
    (hp : '%' ∉ clean_filename x) (hlen : (clean_filename x).length < 250) :
    clean_filename (clean_filename x) = clean_filename x := by
  have key : ∀ (c2 : List Char),
      c2.Chain' (fun a b => ¬(a = '_' ∧ b = '_')) →
      (∀ c ∈ c2, isBanned c = false) →
      '%' ∉ stripBoth isStripChar c2 →
      (stripBoth isStripChar c2).length < 250 →
      stripBoth isStripChar c2 ≠ [] →
      clean_filename (stripBoth isStripChar c2) = stripBoth isStripChar c2 := by
    intro c2 hch hnb hp' hlen' hne
    have hnb' : ∀ c ∈ stripBoth isStripChar c2, isBanned c = false :=
      fun c hc => hnb c (stripBoth_subset _ _ c hc)
    have hch' := chain'_stripBoth isStripChar c2 hch
    have h1 := unquote_eq_self _ hp'
    have h2 := replace20_eq_self _ hp'
    have h3 := subBanned_eq_self _ hnb'
    have h4 := collapse_eq_self _ hch'
    have h5 := stripBoth_idem isStripChar c2
    simp only [clean_filename, cleanPipeline]
    rw [h1, h2, h3, h4, h5]
    rw [List.take_of_length_le (le_of_lt hlen')]
    rw [if_neg hne]
  by_cases h : cleanPipeline x = []
  · have hx : clean_filename x = fallbackName := by
      simp [clean_filename, h]
    rw [hx]
    decide
  · have hx : clean_filename x = cleanPipeline x := by
      simp [clean_filename, h]
    rw [hx] at hp hlen ⊢
    have hlen250 : (stripBoth isStripChar
        (collapseUnderscores (subBanned (replace20 (unquote x))))).length < 250 := by
      have := hlen
      simp only [cleanPipeline] at this
      rw [List.length_take] at this
      omega
    have hpipe : cleanPipeline x =
        stripBoth isStripChar
          (collapseUnderscores (subBanned (replace20 (unquote x)))) := by
      simp only [cleanPipeline]
      exact List.take_of_length_le (le_of_lt hlen250)
    rw [hpipe] at hp hlen ⊢
    exact key _ (collapse_chain' _)
      (fun c hc => mem_subBanned_not_banned _ c (mem_collapse _ c hc)) hp hlen
      (hpipe ▸ h)

/-- Claim C2 witness: a short clean name is a fixed point of the
sanitizer. -/
theorem claim_C2_idempotent_witness :
    clean_filename (clean_filename "report.txt".data) =
      clean_filename "report.txt".data :=
  claim_C2_idempotent "report.txt".data (by decide) (by decide)

/-- Claim C3 counterexample: a tab is whitespace, but `strip('._ ')` does
not strip it, so the whitespace-only input `"\t"` is returned unchanged
instead of the fallback name. -/
theorem claim_C3_counterexample :
    "\t".data.all Char.isWhitespace = true ∧
    clean_filename "\t".data = "\t".data ∧
    clean_filename "\t".data ≠ fallbackName := by
  refine ⟨by decide, by decide, by decide⟩

/-- Claim C3 (amended): the sanitizer's output never contains a banned
character and never exceeds 250 characters; the fallback name is returned
whenever the cleaned result is empty, which includes every input made of
spaces only (but not other whitespace such as tabs, which survive). -/
theorem claim_C3_sanitizer_output (x : List Char) :
    (∀ c ∈ clean_filename x, isBanned c = false) ∧
    (clean_filename x).length ≤ 250 ∧
    (cleanPipeline x = [] → clean_filename x = fallbackName) ∧
    ((∀ c ∈ x, c = ' ') → clean_filename x = fallbackName) := by
  refine ⟨?_, ?_, ?_, ?_⟩
  · intro c hc
    by_cases h : cleanPipeline x = []
    · rw [show clean_filename x = fallbackName from by simp [clean_filename, h]] at hc
      exact (show ∀ c ∈ fallbackName, isBanned c = false by decide) c hc
    · rw [show clean_filename x = cleanPipeline x from by
        simp [clean_filename, h]] at hc
      exact cleanPipeline_no_banned x c hc
  · by_cases h : cleanPipeline x = []
    · rw [show clean_filename x = fallbackName from by simp [clean_filename, h]]
      decide
    · rw [show clean_filename x = cleanPipeline x from by simp [clean_filename, h]]
      simp only [cleanPipeline]
      rw [List.length_take]
      exact min_le_left _ _
  · intro h
    simp [clean_filename, h]
  · intro h
    have hnp : '%' ∉ x := fun hmem => absurd (h '%' hmem) (by decide)
    have hpipe : cleanPipeline x = [] := by
      simp only [cleanPipeline]
      rw [unquote_eq_self x hnp, replace20_eq_self x hnp]
      rw [subBanned_eq_self x (fun c hc => by rw [h c hc]; decide)]
      rw [collapse_eq_self x (chain'_of_no_underscore x
        (fun c hc => by rw [h c hc]; decide))]
      rw [stripBoth_eq_nil isStripChar x (fun c hc => by rw [h c hc]; decide)]
      rfl
    simp [clean_filename, hpipe]

/-- Claim C3 witness: a space-only input yields the fallback name. -/
theorem claim_C3_sanitizer_output_witness :
    clean_filename "   ".data = fallbackName :=
  (claim_C3_sanitizer_output "   ".data).2.2.2 (by decide)

end DDTg
